import Mathlib

/-!
Shallow embedding of `cli/npm/resolvers/common.rs` (a facade of the npm
package-resolver subsystem): the parallel cache pre-fetch helper
`cache_packages`, the registry read-permission check
`ensure_registry_read_permission`, and the `types_package_name` helper,
together with theorems settling the specified properties.
-/

namespace NpmCommon

/-- One component of a filesystem path, mirroring `std::path::Component`
(we keep the variants the code distinguishes: `ParentDir` against the rest,
plus `RootDir`/`CurDir`/`Normal` to render realistic paths). -/
inductive Component where
  | rootDir : Component
  | curDir : Component
  | parentDir : Component
  | normal : String → Component
deriving DecidableEq, Repr

/-- A filesystem path as its list of components; `std::path::Path::starts_with`
is component-wise prefix, and `components()` iterates this list. -/
abbrev FsPath := List Component

/-- Rendering of one component, as `Path::display` shows it. -/
def Component.render : Component → String
  | .rootDir => ""
  | .curDir => "."
  | .parentDir => ".."
  | .normal s => s

/-- Rendering of a path for error messages (`path.display()`). -/
def FsPath.display (p : FsPath) : String :=
  String.intercalate "/" (p.map Component.render)

/-- The `io::ErrorKind` of a failed filesystem call; the code only
distinguishes `NotFound` from everything else. -/
inductive IoErrorKind where
  | notFound : IoErrorKind
  | other : IoErrorKind
deriving DecidableEq, Repr

/-- The filesystem, abstracted to the single operation the permission check
performs: `std::fs::canonicalize`. -/
structure Filesystem where
  canonicalize : FsPath → Except IoErrorKind FsPath

/-- The error value produced by `deno_core::error::custom_error(kind, message)`. -/
structure AnyError where
  kind : String
  message : String
deriving DecidableEq, Repr

/-- The error built at the end of `ensure_registry_read_permission`:
`custom_error("PermissionDenied", format!("Reading {} is not allowed", path.display()))`. -/
def permissionDeniedError (path : FsPath) : AnyError :=
  ⟨"PermissionDenied", "Reading " ++ FsPath.display path ++ " is not allowed"⟩

/-- Embedding of `ensure_registry_read_permission(registry_path, path)`:
allow when the target lexically starts with the registry root, has no `..`
component, the root canonicalizes, and the canonical target either starts
with the canonical root or does not exist; otherwise permission denied. -/
def ensure_registry_read_permission (fs : Filesystem)
    (registry_path path : FsPath) : Except AnyError Unit :=
  if registry_path <+: path ∧ Component.parentDir ∉ path then
    match fs.canonicalize registry_path with
    | .ok registry_canon =>
      match fs.canonicalize path with
      | .ok path_canon =>
        if registry_canon <+: path_canon then .ok ()
        else .error (permissionDeniedError path)
      | .error e =>
        if e = .notFound then .ok ()
        else .error (permissionDeniedError path)
    | .error _ => .error (permissionDeniedError path)
  else .error (permissionDeniedError path)

/-- C1: `ensure_registry_read_permission` accepts exactly when the target is
lexically at or under the registry root, has no `..` component, the root
canonicalizes, and the target canonicalizes under the canonical root or
fails to canonicalize with not-found. -/
theorem ensure_registry_read_permission_ok_iff
    (fs : Filesystem) (R P : FsPath) :
    ensure_registry_read_permission fs R P = .ok () ↔
      R <+: P ∧ Component.parentDir ∉ P ∧
      ∃ rc, fs.canonicalize R = .ok rc ∧
        ((∃ pc, fs.canonicalize P = .ok pc ∧ rc <+: pc) ∨
          fs.canonicalize P = .error .notFound) := by
  unfold ensure_registry_read_permission
  split
  · rename_i hl
    obtain ⟨hpre, hnp⟩ := hl
    cases hR : fs.canonicalize R with
    | ok rc =>
      cases hP : fs.canonicalize P with
      | ok pc =>
        by_cases hcp : rc <+: pc
        · simp [hcp, hpre, hnp]
        · simp [hcp, hpre, hnp]
      | error e =>
        by_cases he : e = IoErrorKind.notFound
        · subst he; simp [hpre, hnp]
        · simp [he, hpre, hnp]
    | error e => simp
  · rename_i hl
    rw [not_and_or] at hl
    rcases hl with hl | hl <;> simp [hl]

/-! ### The package model and the PackageId order -/

/-- Lexicographic comparison of character lists, `as ≤ bs`. -/
def charsLe : List Char → List Char → Bool
  | [], _ => true
  | _ :: _, [] => false
  | a :: as, b :: bs =>
    if a < b then true else if b < a then false else charsLe as bs

theorem charsLe_total : ∀ as bs, charsLe as bs = true ∨ charsLe bs as = true := by
  intro as
  induction as with
  | nil => intro bs; left; rfl
  | cons a as ih =>
    intro bs
    cases bs with
    | nil => right; rfl
    | cons b bs =>
      rcases lt_trichotomy a b with h | h | h
      · left; simp [charsLe, h]
      · subst h
        rcases ih bs with h2 | h2
        · left; simp [charsLe, lt_irrefl, h2]
        · right; simp [charsLe, lt_irrefl, h2]
      · right; simp [charsLe, h]

theorem charsLe_antisymm :
    ∀ as bs, charsLe as bs = true → charsLe bs as = true → as = bs := by
  intro as
  induction as with
  | nil =>
    intro bs h1 h2
    cases bs with
    | nil => rfl
    | cons b bs => simp [charsLe] at h2
  | cons a as ih =>
    intro bs h1 h2
    cases bs with
    | nil => simp [charsLe] at h1
    | cons b bs =>
      rcases lt_trichotomy a b with h | h | h
      · simp [charsLe, h, lt_asymm h] at h2
      · subst h
        simp [charsLe, lt_irrefl] at h1 h2
        rw [ih bs h1 h2]
      · simp [charsLe, h, lt_asymm h] at h1

theorem charsLe_trans :
    ∀ as bs cs, charsLe as bs = true → charsLe bs cs = true →
      charsLe as cs = true := by
  intro as
  induction as with
  | nil => intro bs cs h1 h2; rfl
  | cons a as ih =>
    intro bs cs h1 h2
    cases bs with
    | nil => simp [charsLe] at h1
    | cons b bs =>
      cases cs with
      | nil => simp [charsLe] at h2
      | cons c cs =>
        rcases lt_trichotomy a b with hab | hab | hab
        · rcases lt_trichotomy b c with hbc | hbc | hbc
          · simp [charsLe, lt_trans hab hbc]
          · subst hbc; simp [charsLe, hab]
          · simp [charsLe, hbc, lt_asymm hbc] at h2
        · subst hab
          rcases lt_trichotomy a c with hac | hac | hac
          · simp [charsLe, hac]
          · subst hac
            simp [charsLe, lt_irrefl] at h1 h2 ⊢
            exact ih _ _ h1 h2
          · simp [charsLe, hac, lt_asymm hac] at h2
        · simp [charsLe, hab, lt_asymm hab] at h1

theorem String.eq_of_data_eq {s t : String} (h : s.data = t.data) : s = t := by
  cases s; cases t; cases h; rfl

/-- The resolved identity of one package: name plus exact version
(`NpmPackageId`, defined outside this file; only its `name`/`version`
fields and its total order are used here). -/
structure NpmPackageId where
  name : String
  version : String
deriving DecidableEq, Repr

/-- Modelled from the spec: `PackageId` is "Totally ordered by a stable
comparison on (name, version)" (the `Ord` instance of `NpmPackageId` that
`a.id.cmp(&b.id)` invokes lives outside this file). We model the order as
the lexicographic order on the (name, version) pair of strings. -/
def NpmPackageId.le (a b : NpmPackageId) : Prop :=
  (if a.name = b.name then charsLe a.version.data b.version.data
   else charsLe a.name.data b.name.data) = true

instance : DecidableRel NpmPackageId.le := fun a b => by
  unfold NpmPackageId.le; infer_instance

theorem NpmPackageId.le_total (a b : NpmPackageId) : a.le b ∨ b.le a := by
  unfold NpmPackageId.le
  by_cases h : a.name = b.name
  · simp [h, charsLe_total]
  · simp [h, Ne.symm h, charsLe_total]

theorem NpmPackageId.le_trans (a b c : NpmPackageId) :
    a.le b → b.le c → a.le c := by
  unfold NpmPackageId.le
  intro h1 h2
  by_cases hab : a.name = b.name
  · rw [if_pos hab] at h1
    by_cases hbc : b.name = c.name
    · rw [if_pos hbc] at h2
      rw [if_pos (hab.trans hbc)]
      exact charsLe_trans _ _ _ h1 h2
    · rw [if_neg hbc] at h2
      rw [if_neg (fun h => hbc (hab ▸ h)), hab]
      exact h2
  · rw [if_neg hab] at h1
    by_cases hbc : b.name = c.name
    · rw [if_pos hbc] at h2
      rw [if_neg (fun h => hab (h.trans hbc.symm)), ← hbc]
      exact h1
    · rw [if_neg hbc] at h2
      by_cases hac : a.name = c.name
      · rw [← hac] at h2
        exact absurd (String.eq_of_data_eq (charsLe_antisymm _ _ h1 h2)) hab
      · rw [if_neg hac]
        exact charsLe_trans _ _ _ h1 h2

theorem NpmPackageId.le_antisymm (a b : NpmPackageId) :
    a.le b → b.le a → a = b := by
  unfold NpmPackageId.le
  intro h1 h2
  by_cases h : a.name = b.name
  · rw [if_pos h] at h1
    rw [if_pos h.symm] at h2
    have hv : a.version = b.version :=
      String.eq_of_data_eq (charsLe_antisymm _ _ h1 h2)
    cases a; cases b
    simp_all
  · rw [if_neg h] at h1
    rw [if_neg (fun h2 => h h2.symm)] at h2
    exact absurd (String.eq_of_data_eq (charsLe_antisymm _ _ h1 h2)) h

/-- One node of the resolution graph (`NpmResolutionPackage`): its id, its
`copy_index`, and its distribution descriptor (opaque here; the code only
forwards `&package.dist` to the cache). -/
structure NpmResolutionPackage where
  id : NpmPackageId
  copy_index : Nat
  dist : String
deriving DecidableEq, Repr

/-- The order `|a, b| a.id.cmp(&b.id)` that `packages.sort_by` uses. -/
def pkgLe (a b : NpmResolutionPackage) : Prop :=
  a.id.le b.id

instance : DecidableRel pkgLe := fun a b => by
  unfold pkgLe; infer_instance

instance : IsTotal NpmResolutionPackage pkgLe :=
  ⟨fun a b => NpmPackageId.le_total a.id b.id⟩

instance : IsTrans NpmResolutionPackage pkgLe :=
  ⟨fun a b c => NpmPackageId.le_trans a.id b.id c.id⟩

/-- Two sorted lists of packages that are permutations of each other and
whose package ids are pairwise distinct are equal. -/
theorem sorted_perm_eq_of_nodup_ids :
    ∀ l₁ l₂ : List NpmResolutionPackage, l₁.Perm l₂ →
      l₁.Pairwise pkgLe → l₂.Pairwise pkgLe →
      (l₁.map (·.id)).Nodup → l₁ = l₂ := by
  intro l₁
  induction l₁ with
  | nil =>
    intro l₂ hp _ _ _
    exact hp.nil_eq
  | cons a t₁ ih =>
    intro l₂ hp hs₁ hs₂ hnd
    cases l₂ with
    | nil => exact absurd hp.symm.nil_eq (by simp)
    | cons b t₂ =>
      have hab : a = b := by
        by_contra hne
        have ha2 : a ∈ t₂ := by
          rcases List.mem_cons.mp (hp.subset (List.mem_cons_self a t₁)) with h | h
          · exact absurd h hne
          · exact h
        have hb1 : b ∈ t₁ := by
          rcases List.mem_cons.mp (hp.symm.subset (List.mem_cons_self b t₂)) with h | h
          · exact absurd h.symm hne
          · exact h
        have r1 : pkgLe a b := (List.pairwise_cons.mp hs₁).1 b hb1
        have r2 : pkgLe b a := (List.pairwise_cons.mp hs₂).1 a ha2
        have hid : a.id = b.id := NpmPackageId.le_antisymm a.id b.id r1 r2
        have hmem : a.id ∈ t₁.map (·.id) := List.mem_map.mpr ⟨b, hb1, hid.symm⟩
        rw [List.map_cons, List.nodup_cons] at hnd
        exact hnd.1 hmem
      subst hab
      have ht : t₁ = t₂ := by
        refine ih t₂ hp.cons_inv (List.pairwise_cons.mp hs₁).2
          (List.pairwise_cons.mp hs₂).2 ?_
        rw [List.map_cons, List.nodup_cons] at hnd
        exact hnd.2
      rw [ht]

/-! ### The cache pre-fetch helper `cache_packages` -/

/-- The argument tuple of one
`cache.ensure_package((name, &version), &dist, &registry_url)` invocation. -/
structure EnsurePackageCall where
  name : String
  version : String
  dist : String
  registry_url : String
deriving DecidableEq, Repr

/-- The arguments the loop body of `cache_packages` passes to
`ensure_package` for one package. -/
def toCall (registry_url : String) (p : NpmResolutionPackage) :
    EnsurePackageCall :=
  ⟨p.id.name, p.id.version, p.dist, registry_url⟩

/-- How one call of `cache_packages` terminates: normal return `Ok(())`, an
error return, or the `assert_eq!(package.copy_index, 0)` panic. -/
inductive CacheOutcome where
  | ok : CacheOutcome
  | err : String → CacheOutcome
  | panicked : CacheOutcome
deriving DecidableEq, Repr

/-- The loop of `cache_packages` when `sync_download` holds: for each
package assert `copy_index == 0`, invoke `ensure_package`, and await it
before the next iteration; `handle.await??` propagates the first error
immediately. Returns the outcome and the sequence of `ensure_package`
invocations actually made. -/
def runSerial (ensure : EnsurePackageCall → Except String Unit)
    (url : String) :
    List NpmResolutionPackage → CacheOutcome × List EnsurePackageCall
  | [] => (.ok, [])
  | p :: rest =>
    if p.copy_index = 0 then
      match ensure (toCall url p) with
      | .ok _ =>
        let r := runSerial ensure url rest
        (r.1, toCall url p :: r.2)
      | .error e => (.err e, [toCall url p])
    else (.panicked, [])

/-- The loop of `cache_packages` when `sync_download` is false: for each
package assert `copy_index == 0` and spawn a task invoking
`ensure_package` (every spawned task runs); after the loop, `join_all` the
handles in spawn order and surface the first error positionally. A panic
in the spawn loop aborts before any result is surfaced. -/
def runParallel (ensure : EnsurePackageCall → Except String Unit)
    (url : String) :
    List NpmResolutionPackage → CacheOutcome × List EnsurePackageCall
  | [] => (.ok, [])
  | p :: rest =>
    if p.copy_index = 0 then
      let r := runParallel ensure url rest
      let outcome :=
        if r.1 = .panicked then CacheOutcome.panicked
        else
          match ensure (toCall url p) with
          | .error e => .err e
          | .ok _ => r.1
      (outcome, toCall url p :: r.2)
    else (.panicked, [])

/-- `packages.sort_by(|a, b| a.id.cmp(&b.id))`: a stable sort by the total
order on package ids, embedded as an insertion sort (which is stable). -/
def sortPackages (l : List NpmResolutionPackage) :
    List NpmResolutionPackage :=
  l.insertionSort pkgLe

/-- Embedding of `cache_packages(packages, cache, registry_url)`.
`sync_download` is the process-wide serial flag `should_sync_download()`;
`ensure` is the cache collaborator. Returns the outcome together with the
sequence of `ensure_package` invocations made. -/
def cache_packages (sync_download : Bool)
    (ensure : EnsurePackageCall → Except String Unit) (registry_url : String)
    (packages : List NpmResolutionPackage) :
    CacheOutcome × List EnsurePackageCall :=
  let packages := if sync_download then sortPackages packages else packages
  if sync_download then runSerial ensure registry_url packages
  else runParallel ensure registry_url packages

/-- The first error of the `ensure_package` results, positionally over the
given list. -/
def firstError (ensure : EnsurePackageCall → Except String Unit)
    (url : String) : List NpmResolutionPackage → Option String
  | [] => none
  | p :: rest =>
    match ensure (toCall url p) with
    | .error e => some e
    | .ok _ => firstError ensure url rest

/-- The outcome `firstError` dictates: ok when none, else that error. -/
def outcomeOfFirstError : Option String → CacheOutcome
  | none => .ok
  | some e => .err e

theorem outcomeOfFirstError_ne_panicked (o : Option String) :
    outcomeOfFirstError o ≠ .panicked := by
  cases o <;> simp [outcomeOfFirstError]

theorem firstError_eq_none_iff (ensure : EnsurePackageCall → Except String Unit)
    (url : String) (l : List NpmResolutionPackage) :
    firstError ensure url l = none ↔
      ∀ p ∈ l, ensure (toCall url p) = .ok () := by
  induction l with
  | nil => simp [firstError]
  | cons p rest ih =>
    cases he : ensure (toCall url p) with
    | ok u =>
      cases u
      simp [firstError, he, ih]
    | error e =>
      constructor
      · intro hnone
        rw [firstError, he] at hnone
        exact absurd hnone (by simp)
      · intro hall
        have := hall p (List.mem_cons_self p rest)
        rw [he] at this
        exact absurd this (by simp)

theorem runSerial_eq_of_copy_index_zero
    (ensure : EnsurePackageCall → Except String Unit) (url : String)
    (l : List NpmResolutionPackage) (h : ∀ p ∈ l, p.copy_index = 0) :
    (runSerial ensure url l).1 = outcomeOfFirstError (firstError ensure url l) := by
  induction l with
  | nil => simp [runSerial, firstError, outcomeOfFirstError]
  | cons p rest ih =>
    have hp : p.copy_index = 0 := h p (List.mem_cons_self p rest)
    cases he : ensure (toCall url p) with
    | ok u =>
      cases u
      simp only [runSerial, hp, if_pos, if_true, he, firstError]
      exact ih (fun q hq => h q (List.mem_cons_of_mem p hq))
    | error e =>
      simp [runSerial, hp, he, firstError, outcomeOfFirstError]

theorem runSerial_ok_iff_calls_ok
    (ensure : EnsurePackageCall → Except String Unit) (url : String)
    (l : List NpmResolutionPackage) (h : ∀ p ∈ l, p.copy_index = 0) :
    (runSerial ensure url l).1 = .ok ↔
      ∀ c ∈ (runSerial ensure url l).2, ensure c = .ok () := by
  induction l with
  | nil => simp [runSerial]
  | cons p rest ih =>
    have hp : p.copy_index = 0 := h p (List.mem_cons_self p rest)
    cases he : ensure (toCall url p) with
    | ok u =>
      cases u
      simp only [runSerial, hp, if_pos, if_true, he, List.mem_cons]
      rw [ih (fun q hq => h q (List.mem_cons_of_mem p hq))]
      constructor
      · intro hall c hc
        rcases hc with rfl | hc
        · exact he
        · exact hall c hc
      · intro hall c hc
        exact hall c (Or.inr hc)
    | error e =>
      simp only [runSerial, hp, if_pos, if_true, he]
      constructor
      · intro hcon
        exact absurd hcon (by simp)
      · intro hall
        have := hall (toCall url p) (by simp)
        rw [he] at this
        exact absurd this (by simp)

theorem runParallel_eq_of_copy_index_zero
    (ensure : EnsurePackageCall → Except String Unit) (url : String)
    (l : List NpmResolutionPackage) (h : ∀ p ∈ l, p.copy_index = 0) :
    runParallel ensure url l =
      (outcomeOfFirstError (firstError ensure url l), l.map (toCall url)) := by
  induction l with
  | nil => simp [runParallel, firstError, outcomeOfFirstError]
  | cons p rest ih =>
    have hp : p.copy_index = 0 := h p (List.mem_cons_self p rest)
    have ih' := ih (fun q hq => h q (List.mem_cons_of_mem p hq))
    cases he : ensure (toCall url p) with
    | ok u =>
      cases u
      simp [runParallel, hp, ih', he, firstError,
        outcomeOfFirstError_ne_panicked]
    | error e =>
      cases hfe : firstError ensure url rest <;>
        simp [runParallel, hp, ih', he, firstError, hfe, outcomeOfFirstError]

/-! ### The types-package-name helper -/

/-- `package_name.replace('/', "__")` at character level: every `'/'`
becomes two underscores, all other characters are kept. -/
def replaceSlashes : List Char → List Char
  | [] => []
  | c :: cs => (if c = '/' then ['_', '_'] else [c]) ++ replaceSlashes cs

/-- Embedding of `types_package_name`:
`format!("@types/{}", package_name.replace('/', "__"))`. -/
def types_package_name (package_name : String) : String :=
  "@types/" ++ String.mk (replaceSlashes package_name.data)

theorem slash_not_mem_replaceSlashes : ∀ cs, '/' ∉ replaceSlashes cs := by
  intro cs
  induction cs with
  | nil => intro hmem; exact absurd hmem (List.not_mem_nil _)
  | cons c cs ih =>
    intro hmem
    rw [replaceSlashes] at hmem
    rcases List.mem_append.mp hmem with h1 | h2
    · by_cases h : c = '/'
      · rw [if_pos h] at h1
        rcases List.mem_cons.mp h1 with he | h1'
        · exact absurd he (by decide)
        · rcases List.mem_cons.mp h1' with he | h1''
          · exact absurd he (by decide)
          · exact absurd h1'' (List.not_mem_nil _)
      · rw [if_neg h] at h1
        rcases List.mem_cons.mp h1 with he | h1'
        · exact h he.symm
        · exact absurd h1' (List.not_mem_nil _)
    · exact ih h2

/-! ### Claim theorems for the permission check -/

/-- C2: for every target path containing at least one `..` component,
`ensure_registry_read_permission` returns an error, regardless of the
filesystem (no canonicalization result can make it accept). -/
theorem ensure_registry_read_permission_rejects_parentdir
    (fs : Filesystem) (R P : FsPath) (h : Component.parentDir ∈ P) :
    ensure_registry_read_permission fs R P =
      .error (permissionDeniedError P) := by
  unfold ensure_registry_read_permission
  exact if_neg (fun hc => hc.2 h)

/-- Witness for C2 at a concrete input. -/
theorem ensure_registry_read_permission_rejects_parentdir_witness :
    Component.parentDir ∈ [Component.rootDir, Component.parentDir]
    ∧ ensure_registry_read_permission ⟨fun _ => .error .other⟩ []
        [Component.rootDir, Component.parentDir] =
      .error (permissionDeniedError [Component.rootDir, Component.parentDir]) :=
  ⟨by decide,
    ensure_registry_read_permission_rejects_parentdir _ _ _ (by decide)⟩

/-- Every run of `ensure_registry_read_permission` returns either `Ok(())`
or the permission-denied error naming the original target path. -/
theorem ensure_registry_error_eq (fs : Filesystem) (R P : FsPath) :
    ensure_registry_read_permission fs R P = .ok () ∨
    ensure_registry_read_permission fs R P =
      .error (permissionDeniedError P) := by
  unfold ensure_registry_read_permission
  split
  · split
    · split
      · split
        · exact Or.inl rfl
        · exact Or.inr rfl
      · split
        · exact Or.inl rfl
        · exact Or.inr rfl
    · exact Or.inr rfl
  · exact Or.inr rfl

/-- C6: whenever `ensure_registry_read_permission` rejects, the error kind
is `PermissionDenied` and the message is exactly
`Reading <path> is not allowed` for the original (non-canonicalized)
target path. -/
theorem ensure_registry_read_permission_error_shape
    (fs : Filesystem) (R P : FsPath) (e : AnyError)
    (h : ensure_registry_read_permission fs R P = .error e) :
    e.kind = "PermissionDenied" ∧
      e.message = "Reading " ++ FsPath.display P ++ " is not allowed" := by
  rcases ensure_registry_error_eq fs R P with hok | herr
  · rw [hok] at h
    exact absurd h (by simp)
  · rw [herr] at h
    injection h with h'
    rw [← h']
    exact ⟨rfl, rfl⟩

/-- Witness for C6 at a concrete input. -/
theorem ensure_registry_read_permission_error_shape_witness :
    ensure_registry_read_permission ⟨fun _ => .error .other⟩
        [Component.normal "a"] [Component.normal "b"] =
      .error (permissionDeniedError [Component.normal "b"])
    ∧ (permissionDeniedError [Component.normal "b"]).kind = "PermissionDenied"
    ∧ (permissionDeniedError [Component.normal "b"]).message =
        "Reading " ++ FsPath.display [Component.normal "b"] ++ " is not allowed" :=
  ⟨rfl,
    ensure_registry_read_permission_error_shape
      ⟨fun _ => .error .other⟩ [Component.normal "a"] [Component.normal "b"]
      (permissionDeniedError [Component.normal "b"]) rfl⟩

/-- C8: the lexical test compares whole path components, not string
prefixes: a sibling path whose textual form merely extends the root's last
component fails the test and is rejected. -/
theorem ensure_registry_read_permission_componentwise
    (fs : Filesystem) (R₀ : FsPath) (s t : String) (rest : FsPath)
    (h : t ≠ "") :
    ensure_registry_read_permission fs (R₀ ++ [Component.normal s])
        (R₀ ++ Component.normal (s ++ t) :: rest) =
      .error (permissionDeniedError
        (R₀ ++ Component.normal (s ++ t) :: rest)) := by
  have hst : s ≠ s ++ t := by
    intro he
    have hl : s.length = s.length + t.length := by
      conv_lhs => rw [he]
      simp [String.length_append]
    have ht : t.length = 0 := by omega
    exact h (String.eq_of_data_eq (List.length_eq_zero.mp ht))
  have hpre : ¬ (R₀ ++ [Component.normal s] <+:
      R₀ ++ Component.normal (s ++ t) :: rest) := by
    rw [List.prefix_append_right_inj, List.cons_prefix_cons]
    rintro ⟨hc, -⟩
    injection hc with hc
    exact hst hc
  unfold ensure_registry_read_permission
  exact if_neg (fun hcon => hpre hcon.1)

/-- Witness for C8 at the spec's concrete example, root `/reg` against
target `/regextra/x`. -/
theorem ensure_registry_read_permission_componentwise_witness :
    ("extra" : String) ≠ ""
    ∧ ensure_registry_read_permission ⟨fun _ => .error .other⟩
        ([Component.rootDir] ++ [Component.normal "reg"])
        ([Component.rootDir] ++ Component.normal ("reg" ++ "extra") ::
          [Component.normal "x"]) =
      .error (permissionDeniedError
        ([Component.rootDir] ++ Component.normal ("reg" ++ "extra") ::
          [Component.normal "x"])) :=
  ⟨by decide,
    ensure_registry_read_permission_componentwise _ _ _ _ _ (by decide)⟩

/-- C10: a target exactly equal to the registry root is accepted, provided
the root has no `..` component and canonicalizes successfully. -/
theorem ensure_registry_read_permission_accepts_root
    (fs : Filesystem) (R rc : FsPath)
    (h1 : Component.parentDir ∉ R) (h2 : fs.canonicalize R = .ok rc) :
    ensure_registry_read_permission fs R R = .ok () := by
  unfold ensure_registry_read_permission
  rw [if_pos ⟨List.prefix_refl R, h1⟩]
  simp only [h2]
  rw [if_pos (List.prefix_refl rc)]

/-- Witness for C10 at a concrete input. -/
theorem ensure_registry_read_permission_accepts_root_witness :
    Component.parentDir ∉ [Component.normal "reg"]
    ∧ Filesystem.canonicalize ⟨fun _ => .ok []⟩ [Component.normal "reg"] = .ok []
    ∧ ensure_registry_read_permission ⟨fun _ => .ok []⟩
        [Component.normal "reg"] [Component.normal "reg"] = .ok () :=
  ⟨by decide, rfl,
    ensure_registry_read_permission_accepts_root _ _ _ (by decide) rfl⟩

/-! ### Claim theorems for the cache pre-fetch -/

theorem outcomeOfFirstError_eq_ok_iff (o : Option String) :
    outcomeOfFirstError o = .ok ↔ o = none := by
  cases o <;> simp [outcomeOfFirstError]

/-- C3: when every entry has `copy_index == 0`, `cache_packages` returns Ok
exactly when every `ensure_package` call it makes succeeds; its outcome is
the first error positionally over the (sorted when serial) input list, Ok
when there is none; and for the empty list it returns Ok without invoking
the cache. -/
theorem cache_packages_first_error_spec (sync : Bool)
    (ensure : EnsurePackageCall → Except String Unit) (url : String)
    (L : List NpmResolutionPackage) (h : ∀ p ∈ L, p.copy_index = 0) :
    ((cache_packages sync ensure url L).1 = .ok ↔
      ∀ c ∈ (cache_packages sync ensure url L).2, ensure c = .ok ())
    ∧ (cache_packages sync ensure url L).1 =
        outcomeOfFirstError
          (firstError ensure url (if sync then sortPackages L else L))
    ∧ cache_packages sync ensure url [] = (.ok, []) := by
  have hempty : cache_packages sync ensure url [] = (.ok, []) := by
    cases sync <;> rfl
  cases sync with
  | false =>
    have hrp := runParallel_eq_of_copy_index_zero ensure url L h
    have hcp : cache_packages false ensure url L = runParallel ensure url L :=
      rfl
    refine ⟨?_, ?_, hempty⟩
    · rw [hcp, hrp]
      rw [outcomeOfFirstError_eq_ok_iff, firstError_eq_none_iff]
      constructor
      · intro hall c hc
        rcases List.mem_map.mp hc with ⟨p, hp, rfl⟩
        exact hall p hp
      · intro hall p hp
        exact hall (toCall url p) (List.mem_map.mpr ⟨p, hp, rfl⟩)
    · rw [hcp, hrp]
      rfl
  | true =>
    have hs : ∀ p ∈ sortPackages L, p.copy_index = 0 := by
      intro p hp
      rw [sortPackages] at hp
      exact h p ((List.mem_insertionSort pkgLe).mp hp)
    have hcs : cache_packages true ensure url L =
        runSerial ensure url (sortPackages L) := rfl
    refine ⟨?_, ?_, hempty⟩
    · rw [hcs]
      exact runSerial_ok_iff_calls_ok ensure url _ hs
    · rw [hcs]
      exact runSerial_eq_of_copy_index_zero ensure url _ hs

/-- Witness for C3 at a concrete input. -/
theorem cache_packages_first_error_spec_witness :
    (∀ p ∈ ([⟨⟨"a", "1"⟩, 0, "d"⟩] : List NpmResolutionPackage),
      p.copy_index = 0)
    ∧ (((cache_packages true (fun _ => .ok ()) "u"
          [⟨⟨"a", "1"⟩, 0, "d"⟩]).1 = .ok ↔
        ∀ c ∈ (cache_packages true (fun _ => .ok ()) "u"
          [⟨⟨"a", "1"⟩, 0, "d"⟩]).2,
          (Except.ok () : Except String Unit) = .ok ())
      ∧ (cache_packages true (fun _ => .ok ()) "u"
          [⟨⟨"a", "1"⟩, 0, "d"⟩]).1 =
          outcomeOfFirstError (firstError (fun _ => .ok ()) "u"
            (if true then sortPackages [⟨⟨"a", "1"⟩, 0, "d"⟩]
             else [⟨⟨"a", "1"⟩, 0, "d"⟩]))
      ∧ cache_packages true (fun _ => .ok ()) "u" [] = (.ok, [])) :=
  ⟨by decide, cache_packages_first_error_spec true _ "u" _ (by decide)⟩

/-- C7: with every `copy_index == 0`, the
`assert_eq!(package.copy_index, 0)` branch of `cache_packages` is
unreachable: the call never panics. -/
theorem cache_packages_assert_unreachable (sync : Bool)
    (ensure : EnsurePackageCall → Except String Unit) (url : String)
    (L : List NpmResolutionPackage) (h : ∀ p ∈ L, p.copy_index = 0) :
    (cache_packages sync ensure url L).1 ≠ .panicked := by
  cases sync with
  | false =>
    have hrp := runParallel_eq_of_copy_index_zero ensure url L h
    have hcp : cache_packages false ensure url L = runParallel ensure url L :=
      rfl
    rw [hcp, hrp]
    exact outcomeOfFirstError_ne_panicked _
  | true =>
    have hs : ∀ p ∈ sortPackages L, p.copy_index = 0 := by
      intro p hp
      rw [sortPackages] at hp
      exact h p ((List.mem_insertionSort pkgLe).mp hp)
    have hcs : cache_packages true ensure url L =
        runSerial ensure url (sortPackages L) := rfl
    rw [hcs, runSerial_eq_of_copy_index_zero ensure url _ hs]
    exact outcomeOfFirstError_ne_panicked _

/-- Witness for C7 at a concrete input. -/
theorem cache_packages_assert_unreachable_witness :
    (∀ p ∈ ([⟨⟨"a", "1"⟩, 0, "d"⟩] : List NpmResolutionPackage),
      p.copy_index = 0)
    ∧ (cache_packages false (fun _ => .ok ()) "u"
        [⟨⟨"a", "1"⟩, 0, "d"⟩]).1 ≠ .panicked :=
  ⟨by decide, cache_packages_assert_unreachable false _ "u" _ (by decide)⟩

theorem runSerial_all_ok_append
    (ensure : EnsurePackageCall → Except String Unit) (url : String)
    (A rest : List NpmResolutionPackage)
    (hA : ∀ p ∈ A, p.copy_index = 0 ∧ ensure (toCall url p) = .ok ()) :
    runSerial ensure url (A ++ rest) =
      ((runSerial ensure url rest).1,
        A.map (toCall url) ++ (runSerial ensure url rest).2) := by
  induction A with
  | nil => simp [runSerial]
  | cons a A ih =>
    obtain ⟨ha0, haok⟩ := hA a (List.mem_cons_self a A)
    have ih' := ih (fun p hp => hA p (List.mem_cons_of_mem a hp))
    simp [runSerial, ha0, haok, ih']

/-- C9: under the serial flag, once an `ensure_package` call fails the
remaining entries of the sorted list are never invoked: the outcome is that
error, the call sequence is exactly the prefix through the failing entry,
and it is strictly shorter than the input whenever later entries remain. -/
theorem cache_packages_serial_stops_at_first_error
    (ensure : EnsurePackageCall → Except String Unit) (url : String)
    (L A B : List NpmResolutionPackage) (q : NpmResolutionPackage)
    (e : String)
    (hsort : sortPackages L = A ++ q :: B)
    (hA : ∀ p ∈ A, p.copy_index = 0 ∧ ensure (toCall url p) = .ok ())
    (hq0 : q.copy_index = 0) (hqe : ensure (toCall url q) = .error e) :
    cache_packages true ensure url L = (.err e, (A ++ [q]).map (toCall url))
    ∧ (B ≠ [] → ((A ++ [q]).map (toCall url)).length < L.length) := by
  have hcs : cache_packages true ensure url L =
      runSerial ensure url (sortPackages L) := rfl
  constructor
  · rw [hcs, hsort, runSerial_all_ok_append ensure url A _ hA]
    have hq : runSerial ensure url (q :: B) = (.err e, [toCall url q]) := by
      simp [runSerial, hq0, hqe]
    rw [hq]
    simp
  · intro hB
    have hsort' : List.insertionSort pkgLe L = A ++ q :: B := hsort
    have h1 : (List.insertionSort pkgLe L).length = L.length :=
      List.length_insertionSort pkgLe L
    rw [hsort'] at h1
    have hBpos : 0 < B.length := List.length_pos.mpr hB
    simp only [List.length_append, List.length_cons, List.length_map,
      List.length_nil] at h1 ⊢
    omega

/-- Witness for C9 at a concrete input: three packages, the middle one of
the sorted order fails, the last is never invoked. -/
theorem cache_packages_serial_stops_at_first_error_witness :
    sortPackages
        ([⟨⟨"a", "1"⟩, 0, "da"⟩, ⟨⟨"b", "1"⟩, 0, "db"⟩,
          ⟨⟨"c", "1"⟩, 0, "dc"⟩] : List NpmResolutionPackage) =
      [⟨⟨"a", "1"⟩, 0, "da"⟩] ++ ⟨⟨"b", "1"⟩, 0, "db"⟩ ::
        [⟨⟨"c", "1"⟩, 0, "dc"⟩]
    ∧ (∀ p ∈ ([⟨⟨"a", "1"⟩, 0, "da"⟩] : List NpmResolutionPackage),
        p.copy_index = 0 ∧
          (fun c => if c.name = "a" then Except.ok () else Except.error "boom")
            (toCall "u" p) = .ok ())
    ∧ (⟨⟨"b", "1"⟩, 0, "db"⟩ : NpmResolutionPackage).copy_index = 0
    ∧ (fun c => if c.name = "a" then Except.ok () else Except.error "boom")
        (toCall "u" (⟨⟨"b", "1"⟩, 0, "db"⟩ : NpmResolutionPackage)) =
        .error "boom"
    ∧ cache_packages true
        (fun c => if c.name = "a" then Except.ok () else Except.error "boom")
        "u"
        [⟨⟨"a", "1"⟩, 0, "da"⟩, ⟨⟨"b", "1"⟩, 0, "db"⟩,
          ⟨⟨"c", "1"⟩, 0, "dc"⟩] =
      (.err "boom",
        (([⟨⟨"a", "1"⟩, 0, "da"⟩] : List NpmResolutionPackage) ++
          ([⟨⟨"b", "1"⟩, 0, "db"⟩] : List NpmResolutionPackage)).map
          (toCall "u"))
    ∧ (([⟨⟨"c", "1"⟩, 0, "dc"⟩] : List NpmResolutionPackage) ≠ [] →
        ((([⟨⟨"a", "1"⟩, 0, "da"⟩] : List NpmResolutionPackage) ++
          ([⟨⟨"b", "1"⟩, 0, "db"⟩] : List NpmResolutionPackage)).map
          (toCall "u")).length <
          ([⟨⟨"a", "1"⟩, 0, "da"⟩, ⟨⟨"b", "1"⟩, 0, "db"⟩,
            ⟨⟨"c", "1"⟩, 0, "dc"⟩] : List NpmResolutionPackage).length) := by
  have hA : ∀ p ∈ ([⟨⟨"a", "1"⟩, 0, "da"⟩] : List NpmResolutionPackage),
      p.copy_index = 0 ∧
        (fun c => if c.name = "a" then Except.ok () else Except.error "boom")
          (toCall "u" p) = .ok () := by
    intro p hp
    rcases List.mem_cons.mp hp with rfl | hp'
    · exact ⟨rfl, rfl⟩
    · exact absurd hp' (List.not_mem_nil _)
  have hmain := cache_packages_serial_stops_at_first_error
    (fun c => if c.name = "a" then Except.ok () else Except.error "boom") "u"
    ([⟨⟨"a", "1"⟩, 0, "da"⟩, ⟨⟨"b", "1"⟩, 0, "db"⟩, ⟨⟨"c", "1"⟩, 0, "dc"⟩] :
      List NpmResolutionPackage)
    ([⟨⟨"a", "1"⟩, 0, "da"⟩] : List NpmResolutionPackage)
    ([⟨⟨"c", "1"⟩, 0, "dc"⟩] : List NpmResolutionPackage)
    (⟨⟨"b", "1"⟩, 0, "db"⟩ : NpmResolutionPackage)
    "boom" (by decide) hA rfl rfl
  exact ⟨by decide, hA, rfl, rfl, hmain.1, hmain.2⟩

/-- C4 counterexample: two permuted input lists whose entries share a
package id but differ in their distribution descriptor produce different
serial `ensure_package` invocation sequences, because the stable sort by id
alone preserves the caller-supplied order of id-equal entries. -/
theorem cache_packages_serial_perm_counterexample :
    (([⟨⟨"a", "1"⟩, 0, "d1"⟩, ⟨⟨"a", "1"⟩, 0, "d2"⟩] :
        List NpmResolutionPackage).Perm
      [⟨⟨"a", "1"⟩, 0, "d2"⟩, ⟨⟨"a", "1"⟩, 0, "d1"⟩])
    ∧ (cache_packages true (fun _ => .ok ()) "u"
        [⟨⟨"a", "1"⟩, 0, "d1"⟩, ⟨⟨"a", "1"⟩, 0, "d2"⟩]).2 ≠
      (cache_packages true (fun _ => .ok ()) "u"
        [⟨⟨"a", "1"⟩, 0, "d2"⟩, ⟨⟨"a", "1"⟩, 0, "d1"⟩]).2 :=
  ⟨List.Perm.swap _ _ _, by decide⟩

/-- C4 (amended): when the serial flag is set and the package ids of the
input are pairwise distinct, any two permuted input lists produce the
identical sequence of `ensure_package` invocations (and the same outcome):
the order of effects is independent of caller-supplied ordering. -/
theorem cache_packages_serial_perm_invariant
    (ensure : EnsurePackageCall → Except String Unit) (url : String)
    (L1 L2 : List NpmResolutionPackage)
    (hperm : L1.Perm L2) (hnd : (L1.map (·.id)).Nodup) :
    cache_packages true ensure url L1 = cache_packages true ensure url L2 := by
  have hs1 : (sortPackages L1).Pairwise pkgLe :=
    List.sorted_insertionSort pkgLe L1
  have hs2 : (sortPackages L2).Pairwise pkgLe :=
    List.sorted_insertionSort pkgLe L2
  have hp : (sortPackages L1).Perm (sortPackages L2) :=
    ((List.perm_insertionSort pkgLe L1).trans hperm).trans
      (List.perm_insertionSort pkgLe L2).symm
  have hnd1 : ((sortPackages L1).map (·.id)).Nodup :=
    (((List.perm_insertionSort pkgLe L1).map (·.id)).nodup_iff).mpr hnd
  have hsort : sortPackages L1 = sortPackages L2 :=
    sorted_perm_eq_of_nodup_ids _ _ hp hs1 hs2 hnd1
  have e1 : cache_packages true ensure url L1 =
      runSerial ensure url (sortPackages L1) := rfl
  have e2 : cache_packages true ensure url L2 =
      runSerial ensure url (sortPackages L2) := rfl
  rw [e1, e2, hsort]

/-- Witness for the amended C4 at a concrete input. -/
theorem cache_packages_serial_perm_invariant_witness :
    (([⟨⟨"a", "1"⟩, 0, "da"⟩, ⟨⟨"b", "1"⟩, 0, "db"⟩] :
        List NpmResolutionPackage).Perm
      [⟨⟨"b", "1"⟩, 0, "db"⟩, ⟨⟨"a", "1"⟩, 0, "da"⟩])
    ∧ (([⟨⟨"a", "1"⟩, 0, "da"⟩, ⟨⟨"b", "1"⟩, 0, "db"⟩] :
        List NpmResolutionPackage).map (·.id)).Nodup
    ∧ cache_packages true (fun _ => .ok ()) "u"
        [⟨⟨"a", "1"⟩, 0, "da"⟩, ⟨⟨"b", "1"⟩, 0, "db"⟩] =
      cache_packages true (fun _ => .ok ()) "u"
        [⟨⟨"b", "1"⟩, 0, "db"⟩, ⟨⟨"a", "1"⟩, 0, "da"⟩] :=
  ⟨List.Perm.swap _ _ _, by decide,
    cache_packages_serial_perm_invariant _ "u" _ _
      (List.Perm.swap _ _ _) (by decide)⟩

/-! ### Claim theorem for the types-package-name helper -/

/-- C5: for names not beginning with `@types/`, `types_package_name`
prepends `@types/` to the name with every `/` replaced by `__`; hence the
result begins with `@types/` and has no `/` after that prefix; concretely
on `"name"`, `"@scoped/package"` and `"@a/b/c"`. -/
theorem types_package_name_spec (n : String)
    (h : ¬ ("@types/".data <+: n.data)) :
    (types_package_name n).data = "@types/".data ++ replaceSlashes n.data
    ∧ "@types/".data <+: (types_package_name n).data
    ∧ '/' ∉ replaceSlashes n.data
    ∧ types_package_name "name" = "@types/name"
    ∧ types_package_name "@scoped/package" = "@types/@scoped__package"
    ∧ types_package_name "@a/b/c" = "@types/@a__b__c" := by
  have hdata : (types_package_name n).data =
      "@types/".data ++ replaceSlashes n.data := by
    simp [types_package_name, String.data_append]
  refine ⟨hdata, ?_, slash_not_mem_replaceSlashes n.data,
    by decide, by decide, by decide⟩
  rw [hdata]
  exact List.prefix_append _ _

/-- Witness for C5 at a concrete input. -/
theorem types_package_name_spec_witness :
    ¬ ("@types/".data <+: "foo".data)
    ∧ ((types_package_name "foo").data =
        "@types/".data ++ replaceSlashes "foo".data
      ∧ "@types/".data <+: (types_package_name "foo").data
      ∧ '/' ∉ replaceSlashes "foo".data
      ∧ types_package_name "name" = "@types/name"
      ∧ types_package_name "@scoped/package" = "@types/@scoped__package"
      ∧ types_package_name "@a/b/c" = "@types/@a__b__c") :=
  ⟨by decide, types_package_name_spec "foo" (by decide)⟩

end NpmCommon
